import Mathlib

/-!
Verification development for the intent dispatch and fuzzy-entity-matching
core of the Open-Peer-Power repository (`openpeerpower/helpers/intent.py`).

The Python source is shallowly embedded: pure functions become Lean
functions, the handler registry and entity-state store become explicit
values threaded through the dispatch function, Python exceptions become an
explicit `PyExc` inductive carried in `Except`, and the downstream
service-call collaborator is modelled by recording the list of calls a
handler issues.  The fragment of the Python `re` library exercised by
`_fuzzymatch` (patterns of the shape `c1.*?c2.*?...cn` produced by
`".*?".join(name)`, compiled with `re.IGNORECASE`) is modelled explicitly;
query characters whose regex behaviour is context dependent are kept
outside the model and surface as the `FuzzyRun.outside` value, so every
theorem about the matcher is restricted to the modelled fragment.
-/

set_option maxRecDepth 10000
set_option linter.unusedVariables false

namespace OPP

/-- Modelled fragment of Python runtime values stored in intent slots:
the claims only exercise strings, `None`, and one level of dictionaries,
so slot payloads are either a string or `None`. -/
inductive Prim where
  | str (s : String)
  | null
deriving DecidableEq, Repr

/-- A slot value as passed to `async_handle`: either an atomic payload or a
dictionary such as `{"value": "Kitchen Light"}` (keys map to payloads). -/
inductive SlotVal where
  | prim (p : Prim)
  | dict (entries : List (String × Prim))
deriving DecidableEq, Repr

/-- The `slots` argument of `async_handle`: a Python `Dict[str, Any]`
restricted to the modelled value fragment, as an insertion-ordered
association list with unique keys (Python `dict` semantics). -/
abbrev Slots := List (String × SlotVal)

/-- Python `dict` lookup `d.get(k)`: first entry whose key equals `k`. -/
def dictGet {α : Type} (d : List (String × α)) (k : String) : Option α :=
  match d with
  | [] => none
  | (k₁, v₁) :: rest => if k₁ == k then some v₁ else dictGet rest k

/-- Python `dict` update `d[k] = v`: replace the value at an existing key
in place, otherwise append the new entry (insertion order preserved). -/
def dictSet {α : Type} (d : List (String × α)) (k : String) (v : α) :
    List (String × α) :=
  match d with
  | [] => [(k, v)]
  | (k₁, v₁) :: rest => if k₁ == k then (k, v) :: rest else (k₁, v₁) :: dictSet rest k v

/-- Keys of an association list, in order. -/
def dictKeys {α : Type} (d : List (String × α)) : List String :=
  d.map Prod.fst

/-- Modelled from the spec: the execution context (causal/correlation id)
produced by the external context factory (`openpeerpower.core.Context`,
whose source is not part of the excerpt).  `Context()` generates a fresh
random id; no claim depends on uniqueness, so the fresh context created by
the pipeline when the caller omits one is modelled as `Context.mk 0`. -/
structure Context where
  cid : Nat
deriving DecidableEq, Repr

/-- Modelled from the spec: a candidate entity state from the external
state store (`openpeerpower.core.State` is not part of the excerpt).  The
core reads only the entity id and the display name (`State.name`). -/
structure State where
  entity_id : String
  name : String
deriving DecidableEq, Repr

/-- Modelled from the spec: one invocation of the external service-call
executor `opp.services.async_call(domain, service, {entity_id: ...},
context=...)`.  The core awaits the call and ignores its result, so a call
is modelled by the data it passes. -/
structure ServiceCall where
  domain : String
  service : String
  entity_id : String
  context : Context
deriving DecidableEq, Repr

/-- The intent value object (`helpers/intent.py`, class `Intent`) minus the
`opp` back-reference, which in this embedding is threaded explicitly. -/
structure Intent where
  platform : String
  intent_type : String
  slots : Slots
  text_input : Option String
  context : Context
deriving DecidableEq, Repr

/-- One entry of `IntentResponse.speech`: `{"speech": ..., "extra_data": ...}`. -/
structure SpeechEntry where
  speech : String
  extra_data : Option Prim
deriving DecidableEq, Repr

/-- One entry of `IntentResponse.card`: `{"title": ..., "content": ...}`. -/
structure CardEntry where
  title : String
  content : String
deriving DecidableEq, Repr

/-- Response to an intent (`helpers/intent.py`, class `IntentResponse`). -/
structure IntentResponse where
  intent : Option Intent
  speech : List (String × SpeechEntry)
  card : List (String × CardEntry)
deriving DecidableEq, Repr

/-- `IntentResponse.async_set_speech`: store the entry under its speech
type, overwriting a previous entry of the same type (dict assignment). -/
def async_set_speech (r : IntentResponse) (speech : String)
    (speech_type : String) (extra_data : Option Prim) : IntentResponse :=
  { r with speech := dictSet r.speech speech_type ⟨speech, extra_data⟩ }

/-- `IntentResponse.async_set_card`: store the entry under its card type,
overwriting a previous entry of the same type. -/
def async_set_card (r : IntentResponse) (title : String) (content : String)
    (card_type : String) : IntentResponse :=
  { r with card := dictSet r.card card_type ⟨title, content⟩ }

/-- `IntentResponse.as_dict`: the mapping `{"speech": ..., "card": ...}`,
modelled as the pair of the two component mappings. -/
def as_dict (r : IntentResponse) :
    List (String × SpeechEntry) × List (String × CardEntry) :=
  (r.speech, r.card)

/-- The Python exceptions that can cross the dispatch boundary.  The four
`IntentError` subclasses of `helpers/intent.py` carry their message, and
the two that the source raises with `raise ... from err` carry the cause.
`volInvalid` models `voluptuous.Invalid`, `notImplementedError` and
`assertionError` the built-ins, and `otherExc` any other exception. -/
inductive PyExc where
  | volInvalid (msg : String)
  | unknownIntent (msg : String)
  | invalidSlotInfo (msg : String) (cause : PyExc)
  | intentHandleError (msg : String)
  | intentUnexpectedError (msg : String) (cause : PyExc)
  | notImplementedError
  | assertionError (msg : String)
  | otherExc (msg : String)
deriving DecidableEq, Repr

/-- Membership in the intent error taxonomy: the four subclasses of
`IntentError` defined in `helpers/intent.py`. -/
def isIntentError : PyExc → Bool
  | .unknownIntent _ => true
  | .invalidSlotInfo _ _ => true
  | .intentHandleError _ => true
  | .intentUnexpectedError _ _ => true
  | _ => false

/-- Whether an exception is a `voluptuous.Invalid` validation error. -/
def isVolInvalid : PyExc → Bool
  | .volInvalid _ => true
  | _ => false

/-! ### The fuzzy matcher (`_fuzzymatch`) and its model of Python `re`

`_fuzzymatch` builds the pattern `".*?".join(name)`, i.e. the characters of
the query joined by the lazy any-character filler `.*?`, and compiles it
with `re.IGNORECASE`.  The query characters are not escaped, so the
compiled pattern is `q1 .*? q2 .*? ... qn` with each `qi` a raw character
of the query, interpreted by the regex engine. -/

/-- Case-insensitive character comparison, modelling `re.IGNORECASE` on a
literal character restricted to ASCII text: within ASCII, Python folds a
pattern character and a text character exactly by ASCII lowercasing, which
is `Char.toLower`.  On non-ASCII characters Python performs Unicode case
folding (for instance `Ä` matches `ä`) which this function does not model,
so every theorem whose truth depends on match results carries explicit
ASCII hypotheses (`asciiOnly`) delimiting the modelled fragment. -/
def charIEq (c d : Char) : Bool :=
  c.toLower == d.toLower

/-- Strings of ASCII characters only: the fragment of text on which the
`charIEq` model of `re.IGNORECASE` matching is faithful. -/
def asciiOnly (s : String) : Bool :=
  s.data.all (fun c => c.toNat < 128)

/-- Strings without newline characters.  The lazy fillers `.*?` of the
generated pattern cannot cross a newline (the pattern is compiled without
`re.DOTALL`), so on newline-free keys they match arbitrary filler. -/
def newlineFree (s : String) : Bool :=
  s.data.all (fun c => c != '\n')

/-- One atom of a compiled pattern of the shape `q1.*?q2.*?...qn`: an
ordinary query character compiles to a case-insensitive literal, and the
query character `.` compiles to the any-character metacharacter. -/
inductive ReAtom where
  | lit (c : Char)
  | anyc
deriving DecidableEq, Repr

/-- Whether a pattern atom matches one character of the searched text:
a literal matches case-insensitively (`re.IGNORECASE`), and `.` matches
every character except a newline (no `re.DOTALL`). -/
def atomMatches : ReAtom → Char → Bool
  | .lit c, d => charIEq c d
  | .anyc, d => d != '\n'

/-- How a single query character behaves inside the generated pattern
`q1.*?q2.*?...qn`:

* an ordinary character and `.` compile to an atom;
* `*`, `+` and `?` always make `re.compile` raise `re.error` when every
  other query character is also in the modelled fragment: every query
  character except the first is preceded in the pattern by the filler
  `.*?`, so a quantifier character there is a quantifier applied directly
  to a quantified expression ("multiple repeat"), and in first position it
  has nothing to its left ("nothing to repeat");
* the remaining special characters `^ $ \ | [ ] ( ) { }` produce regex
  constructs whose validity and meaning depend on the surrounding query
  characters (groups, classes, escapes, anchors, alternation); they are
  outside the modelled fragment. -/
inductive CharClass where
  | atom (a : ReAtom)
  | quantErr
  | outside
deriving DecidableEq, Repr

/-- The regex special characters whose behaviour in the generated pattern
is context dependent and therefore outside the modelled fragment. -/
def isOutsideChar (c : Char) : Bool :=
  c == '^' || c == '$' || c == '\\' || c == '|' || c == '[' || c == ']' ||
    c == '(' || c == ')' || c == '\x7b' || c == '\x7d'

/-- All characters the Python `re` syntax treats specially. -/
def isSpecialChar (c : Char) : Bool :=
  c == '.' || c == '*' || c == '+' || c == '?' || isOutsideChar c

/-- Classify one query character (see `CharClass`). -/
def classifyChar (c : Char) : CharClass :=
  if c == '.' then .atom .anyc
  else if c == '*' || c == '+' || c == '?' then .quantErr
  else if isOutsideChar c then .outside
  else .atom (.lit c)

/-- Result of `re.compile` on the generated pattern: the list of atoms
separated by lazy fillers, a compile-time `re.error`, or a pattern using
constructs outside the modelled fragment. -/
inductive PatCompile where
  | ok (atoms : List ReAtom)
  | err
  | outside
deriving DecidableEq, Repr

/-- Model of `re.compile(".*?".join(name), re.IGNORECASE)` over the query
characters.  A character outside the modelled fragment makes the whole
compilation unmodelled (it can swallow or revalidate neighbouring
characters, e.g. a character class); otherwise any quantifier character
makes compilation raise, and otherwise each character contributes one
atom. -/
def compileChars : List Char → PatCompile
  | [] => .ok []
  | c :: cs =>
    match classifyChar c, compileChars cs with
    | .outside, _ => .outside
    | _, .outside => .outside
    | .quantErr, _ => .err
    | _, .err => .err
    | .atom a, .ok atoms => .ok (a :: atoms)

/-- Where the filler `.*?` preceding the atom `a` can end: the filler
consists of `.` repetitions, so — the pattern being compiled without
`re.DOTALL` — it can only consume non-newline characters.  `fillerFind`
returns the index of the earliest character that `a` matches and that is
reachable through such a filler; a newline the atom itself does not match
blocks the filler, and the match attempt at this start position fails.
The backtracking engine tries shorter fillers first, and the earliest
reachable atom position always extends to a full match whenever any
reachable position does (the remaining fillers may cover the skipped
newline-free span), so taking the earliest position is exactly the
engine's behaviour. -/
def fillerFind (a : ReAtom) : List Char → Option Nat
  | [] => none
  | d :: rest =>
    if atomMatches a d then some 0
    else if d == '\n' then none
    else (fillerFind a rest).map (fun j => j + 1)

/-- Match the atoms after the first one against `l` (the text following
the character matched by the previous atom), placing each atom at the
earliest position reachable through its newline-free lazy filler.
Returns the number of characters of `l` consumed up to and including the
last atom's character. -/
def matchRest : List ReAtom → List Char → Option Nat
  | [], _ => some 0
  | a :: as, l =>
    match fillerFind a l with
    | none => none
    | some j => (matchRest as (l.drop (j + 1))).map (fun m => j + 1 + m)

/-- Scan start positions left to right (`regex.search` is leftmost): at
each position the first atom must match the character there and the
remaining atoms must embed in the rest of the text.  Returns the start
offset and the length of the matched span (`match.start()` and
`len(match.group())`). -/
def searchAux (a : ReAtom) (as : List ReAtom) : List Char → Nat → Option (Nat × Nat)
  | [], _ => none
  | c :: rest, p =>
    if atomMatches a c then
      match matchRest as rest with
      | some m => some (p, m + 1)
      | none => searchAux a as rest (p + 1)
    else searchAux a as rest (p + 1)

/-- `regex.search(text)` for a compiled pattern `a1.*?a2.*?...an`: the
empty pattern matches the empty span at offset 0 of every text, otherwise
the leftmost match with lazily minimised fillers. -/
def reSearch (atoms : List ReAtom) (s : List Char) : Option (Nat × Nat) :=
  match atoms with
  | [] => some (0, 0)
  | a :: as => searchAux a as s 0

/-- The loop of `_fuzzymatch`: for each candidate in order, search its key
and record `(len(match.group()), match.start(), idx, item)` when the
search succeeds. -/
def collectMatches {T : Type} (atoms : List ReAtom) (key : T → String) :
    List T → Nat → List (Nat × Nat × Nat × T)
  | [], _ => []
  | it :: rest, idx =>
    match reSearch atoms (key it).data with
    | none => collectMatches atoms key rest (idx + 1)
    | some (st, len) => (len, st, idx, it) :: collectMatches atoms key rest (idx + 1)

/-- Strict lexicographic order on the `(length, start, idx)` prefix of a
recorded match tuple; the item component is never compared because the
indices are distinct (the comment in the source: the index is added so the
first match wins on equal group and start). -/
def tupLt {T : Type} (a b : Nat × Nat × Nat × T) : Bool :=
  a.1 < b.1 ||
    (a.1 == b.1 && (a.2.1 < b.2.1 || (a.2.1 == b.2.1 && a.2.2.1 < b.2.2.1)))

/-- `sorted(matches)[0]` on a list of tuples with pairwise-distinct third
components: the unique lexicographic minimum, found by a left fold that
replaces the current best only on strict decrease. -/
def pickMin {T : Type} (cur : Nat × Nat × Nat × T) :
    List (Nat × Nat × Nat × T) → Nat × Nat × Nat × T
  | [] => cur
  | m :: rest => pickMin (if tupLt m cur then m else cur) rest

/-- Outcome of running `_fuzzymatch`: the query may use regex constructs
outside the modelled fragment, may make `re.compile` raise `re.error`, or
the matcher returns its optional best candidate. -/
inductive FuzzyRun (T : Type) where
  | outside
  | raises
  | returns (r : Option T)
deriving DecidableEq, Repr

/-- The loop and final selection of `_fuzzymatch` for a compiled pattern:
`sorted(matches)[0][3] if matches else None`. -/
def fuzzymatchCore {T : Type} (atoms : List ReAtom) (items : List T)
    (key : T → String) : Option T :=
  match collectMatches atoms key items 0 with
  | [] => none
  | m :: rest => some (pickMin m rest).2.2.2

/-- `_fuzzymatch(name, items, key)` (`helpers/intent.py`): compile the
pattern `".*?".join(name)` with `re.IGNORECASE`, search every candidate's
key, collect `(span length, start, index, item)` tuples for the matching
candidates, and return the item of the smallest tuple, or `None` when no
candidate matches. -/
def _fuzzymatch {T : Type} (name : String) (items : List T) (key : T → String) :
    FuzzyRun T :=
  match compileChars name.data with
  | .outside => .outside
  | .err => .raises
  | .ok atoms => .returns (fuzzymatchCore atoms items key)

/-! ### The matcher the specification describes

The following definitions follow the words of the specification
(section 4.1): search each candidate's key case-insensitively for the
query's characters as a subsequence separated by arbitrary filler, lazily
matched (first match, shortest filler first), discard candidates without a
match, and return the candidate with the lexicographically smallest
`(matched-span length, match start offset, original index)` tuple, or none
when no candidate matches.  They are compared with the embedding of the
source in the refinement theorem for claim C1. -/

/-- Spec-side: the earliest case-insensitive occurrence of a query
character, after arbitrary filler (lazy matching prefers the shortest
filler, hence the first occurrence). -/
def specFillerFind (c : Char) : List Char → Option Nat
  | [] => none
  | d :: rest =>
    if charIEq c d then some 0
    else (specFillerFind c rest).map (fun j => j + 1)

/-- Spec-side: match the query characters after the first one as a
subsequence, each at its earliest case-insensitive occurrence. -/
def specMatchRest : List Char → List Char → Option Nat
  | [], _ => some 0
  | c :: cs, l =>
    match specFillerFind c l with
    | none => none
    | some j => (specMatchRest cs (l.drop (j + 1))).map (fun m => j + 1 + m)

/-- Spec-side: leftmost search for the query as a case-insensitive lazy
subsequence, returning start offset and span length. -/
def specSearchAux (c : Char) (cs : List Char) : List Char → Nat → Option (Nat × Nat)
  | [], _ => none
  | d :: rest, p =>
    if charIEq c d then
      match specMatchRest cs rest with
      | some m => some (p, m + 1)
      | none => specSearchAux c cs rest (p + 1)
    else specSearchAux c cs rest (p + 1)

/-- Spec-side search of one key: the empty query matches the empty span at
offset 0, otherwise the leftmost lazy subsequence match. -/
def specSearch (q s : List Char) : Option (Nat × Nat) :=
  match q with
  | [] => some (0, 0)
  | c :: cs => specSearchAux c cs s 0

/-- Spec-side: collect `(span length, start, index, item)` for every
candidate whose key matches. -/
def specCollect {T : Type} (q : List Char) (key : T → String) :
    List T → Nat → List (Nat × Nat × Nat × T)
  | [], _ => []
  | it :: rest, idx =>
    match specSearch q (key it).data with
    | none => specCollect q key rest (idx + 1)
    | some (st, len) => (len, st, idx, it) :: specCollect q key rest (idx + 1)

/-- The matcher described by the specification: rank the matching
candidates by `(span length, start offset, original index)` and return the
lexicographically smallest, or none when no candidate matches. -/
def fuzzymatchSpec {T : Type} (name : String) (items : List T) (key : T → String) :
    Option T :=
  match specCollect name.data key items 0 with
  | [] => none
  | m :: rest => some (pickMin m rest).2.2.2

/-- Queries in which every character is an ordinary (non-special) regex
character, so that the generated pattern is the case-insensitive lazy
subsequence pattern for exactly the query's characters. -/
def allOrdinary (name : String) : Bool :=
  name.data.all (fun c => !(isSpecialChar c))

/-! ### Handlers, registry and the dispatch pipeline -/

/-- What running a handler produces: either a response or a raised
exception, together with the downstream service calls the handler issued
before finishing (so that "no side effects occurred" is expressible). -/
abbrev HandlerOutcome := Except PyExc IntentResponse × List ServiceCall

/-- An intent handler (`helpers/intent.py`, class `IntentHandler`): its
intent type, its platform allow-list (the base class default is the empty
list, not `None`), and its `async_handle` body as a function of the
current entity states and the intent.  `none` from `run` means the
execution left the modelled fragment (only reachable through unmodelled
regex constructs in a fuzzy query). -/
structure IntentHandler where
  intent_type : Option String
  platforms : Option (List String)
  run : List State → Intent → Option HandlerOutcome

/-- `IntentHandler.async_can_handle`: true iff the handler declares no
platform restriction (`platforms is None`) or the intent's platform is in
the allow-list. -/
def async_can_handle (h : IntentHandler) (intent_obj : Intent) : Bool :=
  match h.platforms with
  | none => true
  | some ps => ps.contains intent_obj.platform

/-- The default `IntentHandler.async_handle` body: raise
`NotImplementedError`. -/
def baseHandlerRun : List State → Intent → Option HandlerOutcome :=
  fun _ _ => some (.error .notImplementedError, [])

/-- `async_register(opp, handler)` on the registry `opp.data["intent"]`:
assert the intent type is set (an unset type raises `AssertionError`),
then store the handler under its type, overwriting — with only a log
warning — a previously registered handler of the same type.  The returned
Boolean records whether the overwrite warning was emitted. -/
def async_register (intents : List (String × IntentHandler))
    (handler : IntentHandler) :
    Except PyExc (List (String × IntentHandler) × Bool) :=
  match handler.intent_type with
  | none => .error (.assertionError "intent_type cannot be None")
  | some t => .ok (dictSet intents t handler, (dictGet intents t).isSome)

/-- Fold `async_register` over a sequence of handlers. -/
def register_all (intents : List (String × IntentHandler)) :
    List IntentHandler → Except PyExc (List (String × IntentHandler))
  | [] => .ok intents
  | h :: rest =>
    match async_register intents h with
    | .error e => .error e
    | .ok (intents₁, _) => register_all intents₁ rest

/-- The hub state the intent core reads: the handler registry
`opp.data["intent"]` and the entity states `opp.states.async_all()`
(the state store itself is an external collaborator). -/
structure Opp where
  intents : List (String × IntentHandler)
  states : List State

/-- The fresh `Context()` the pipeline creates when the caller passes
none. -/
def freshContext : Context := ⟨0⟩

/-- `async_handle(opp, platform, intent_type, slots, text_input, context)`
(`helpers/intent.py`): look the handler up by intent type — raising
`UnknownIntent` outside the `try` block when there is none — construct the
`Intent`, run the handler, and convert raised exceptions: a
`voluptuous.Invalid` becomes `InvalidSlotInfo` with the original error as
cause, an `IntentHandleError` is re-raised verbatim, and every other
exception becomes `IntentUnexpectedError` with the original as cause. -/
def async_handle (opp : Opp) (platform intent_type : String)
    (slots : Option Slots) (text_input : Option String)
    (context : Option Context) : Option HandlerOutcome :=
  match dictGet opp.intents intent_type with
  | none => some (.error (.unknownIntent ("Unknown intent " ++ intent_type)), [])
  | some handler =>
    let ctx := context.getD freshContext
    let intent : Intent := ⟨platform, intent_type, slots.getD [], text_input, ctx⟩
    match handler.run opp.states intent with
    | none => none
    | some (.ok result, calls) => some (.ok result, calls)
    | some (.error e, calls) =>
      match e with
      | .volInvalid m =>
        some (.error (.invalidSlotInfo
          ("Received invalid slot info for " ++ intent_type) (.volInvalid m)), calls)
      | .intentHandleError m => some (.error (.intentHandleError m), calls)
      | e => some (.error (.intentUnexpectedError
          ("Error handling " ++ intent_type) e), calls)

/-! ### `ServiceIntentHandler` -/

/-- Modelled from the spec: `cv.string` from
`openpeerpower/helpers/config_validation.py`, which is not part of the
excerpt.  Per the spec the `name` slot is "a required string": a string
passes through unchanged and `None` raises a validation error (the real
coercion also stringifies other scalars, which are outside the modelled
value fragment). -/
def cvString : Prim → Except PyExc Prim
  | .str s => .ok (.str s)
  | .null => .error (.volInvalid "string value is None")

/-- `IntentHandler.async_validate_slots` specialised to the only slot
schema the source declares, `ServiceIntentHandler.slot_schema =
{vol.Required("name"): cv.string}`, wrapped per the source into
`vol.Schema({Required("name"): SLOT_SCHEMA.extend({"value": cv.string})},
extra=ALLOW_EXTRA)` with `voluptuous` semantics: the `name` key is
required (missing key raises `vol.Invalid`), its value must be a
dictionary, the inner plain `"value"` key is optional by `voluptuous`
default and, when present, is validated by `cv.string`; extra keys are
allowed everywhere and returned unchanged. -/
def async_validate_slots_service (slots : Slots) : Except PyExc Slots :=
  match dictGet slots "name" with
  | none => .error (.volInvalid "required key not provided @ data[name]")
  | some (.prim _) =>
    .error (.volInvalid "expected a dictionary for dictionary value @ data[name]")
  | some (.dict entries) =>
    match dictGet entries "value" with
    | none => .ok slots
    | some p =>
      match cvString p with
      | .error e => .error e
      | .ok p₁ => .ok (dictSet slots "name" (.dict (dictSet entries "value" p₁)))

/-- `async_match_state(opp, name)`: fuzzy-match the name over all current
entity states keyed by display name; raise `IntentHandleError` when there
is no match. -/
def async_match_state (name : String) (states : List State) :
    Option (Except PyExc State) :=
  match _fuzzymatch name states (fun st => st.name) with
  | .outside => none
  | .raises => some (.error (.otherExc "re.error"))
  | .returns none =>
    some (.error (.intentHandleError ("Unable to find an entity called " ++ name)))
  | .returns (some st) => some (.ok st)

/-- Outcome of `template.format(arg)`: a brace construct other than the
plain positional placeholder `\x7b\x7d` (an indexed or named field, an
escaped brace, a lone brace) is outside the modelled fragment; two or more
positional placeholders with the single argument raise `IndexError`
(replacement index out of range); otherwise formatting returns a string. -/
inductive FormatRun where
  | outside
  | raises
  | formatted (s : String)
deriving DecidableEq, Repr

/-- Scan a format template: substitute the argument at every plain
`\x7b\x7d` placeholder, counting the placeholders, and fail on any other
brace character. -/
def formatScan (arg : List Char) : List Char → Option (List Char × Nat)
  | [] => some ([], 0)
  | '\x7b' :: '\x7d' :: rest =>
    match formatScan arg rest with
    | none => none
    | some (out, n) => some (arg ++ out, n + 1)
  | c :: rest =>
    if c == '\x7b' || c == '\x7d' then none
    else
      match formatScan arg rest with
      | none => none
      | some (out, n) => some (c :: out, n)

/-- Python `template.format(arg)` with one positional argument: zero
placeholders return the template unchanged (unused arguments are
allowed), one placeholder is substituted, two or more raise `IndexError`
since only one argument is supplied. -/
def pyFormat (template arg : String) : FormatRun :=
  match formatScan arg.data template.data with
  | none => .outside
  | some (out, n) => if n ≤ 1 then .formatted ⟨out⟩ else .raises

/-- The constructor arguments of
`ServiceIntentHandler(intent_type, domain, service, speech)`. -/
structure ServiceIntentHandler where
  intent_type : String
  domain : String
  service : String
  speech : String
deriving DecidableEq, Repr

/-- `ServiceIntentHandler.async_handle`: validate the slots against the
declared schema, read `slots["name"]["value"]` (a missing inner value key
raises `KeyError` at this subscript, since `voluptuous` leaves the plain
`"value"` key optional), resolve the name with `async_match_state`, call
the service with the matched entity's id and the intent's context, and
answer with the speech template formatted with the entity's display name.
The service call precedes the formatting in the source, so when
`str.format` raises, the call has already been issued. -/
def serviceHandlerRun (h : ServiceIntentHandler) (states : List State)
    (intent_obj : Intent) : Option HandlerOutcome :=
  match async_validate_slots_service intent_obj.slots with
  | .error e => some (.error e, [])
  | .ok slots =>
    match dictGet slots "name" with
    | some (.dict entries) =>
      match dictGet entries "value" with
      | some (.str s) =>
        match async_match_state s states with
        | none => none
        | some (.error e) => some (.error e, [])
        | some (.ok st) =>
          let call : ServiceCall := ⟨h.domain, h.service, st.entity_id, intent_obj.context⟩
          match pyFormat h.speech st.name with
          | .outside => none
          | .raises => some (.error (.otherExc "IndexError"), [call])
          | .formatted sp =>
            let response : IntentResponse := ⟨some intent_obj, [], []⟩
            some (.ok (async_set_speech response sp "plain" none), [call])
      | some .null => some (.error (.otherExc "unreachable after validation"), [])
      | none => some (.error (.otherExc "KeyError"), [])
    | _ => some (.error (.otherExc "unreachable after validation"), [])

/-- View a `ServiceIntentHandler` as a registrable `IntentHandler`; the
`platforms` allow-list is inherited from the base class default `[]`. -/
def ServiceIntentHandler.toHandler (h : ServiceIntentHandler) : IntentHandler :=
  { intent_type := some h.intent_type
    platforms := some []
    run := serviceHandlerRun h }

/-! ### Association-list (Python `dict`) lemmas -/

theorem dictGet_dictSet_self {α : Type} (d : List (String × α)) (k : String) (v : α) :
    dictGet (dictSet d k v) k = some v := by
  induction d with
  | nil => simp [dictGet, dictSet]
  | cons e rest ih =>
    obtain ⟨k₁, v₁⟩ := e
    cases hb : k₁ == k with
    | true => simp [dictSet, hb, dictGet]
    | false => simp [dictSet, hb, dictGet, ih]

theorem dictKeys_cons {α : Type} (k : String) (v : α) (d : List (String × α)) :
    dictKeys ((k, v) :: d) = k :: dictKeys d := rfl

theorem dictGet_dictSet {α : Type} (d : List (String × α)) (k k' : String) (v : α) :
    dictGet (dictSet d k v) k' = if k == k' then some v else dictGet d k' := by
  induction d with
  | nil => simp [dictGet, dictSet]
  | cons e rest ih =>
    obtain ⟨k₁, v₁⟩ := e
    cases hb : k₁ == k with
    | true =>
      have hk : k₁ = k := by simpa using hb
      subst hk
      by_cases hk' : k₁ = k'
      · subst hk'
        simp [dictSet, hb, dictGet]
      · have hb' : (k₁ == k') = false := beq_eq_false_iff_ne.mpr hk'
        simp [dictSet, hb, dictGet, hb']
    | false =>
      have hk : k₁ ≠ k := by simpa using hb
      by_cases hk' : k₁ = k'
      · subst hk'
        have hb2 : (k == k₁) = false := beq_eq_false_iff_ne.mpr (fun h => hk h.symm)
        simp [dictSet, hb, dictGet, hb2]
      · have hb' : (k₁ == k') = false := beq_eq_false_iff_ne.mpr hk'
        simp [dictSet, hb, dictGet, hb', ih]

theorem dictFilter_eq_nil_of_not_mem {α : Type} (d : List (String × α)) (k : String)
    (h : k ∉ dictKeys d) :
    d.filter (fun e => e.1 == k) = [] := by
  induction d with
  | nil => rfl
  | cons e rest ih =>
    obtain ⟨k₁, v₁⟩ := e
    rw [dictKeys_cons] at h
    have h1 : k₁ ≠ k := fun hkk => h (by rw [hkk]; exact List.mem_cons_self _ _)
    have h2 : k ∉ dictKeys rest := fun hm => h (List.mem_cons_of_mem _ hm)
    have hb : (k₁ == k) = false := beq_eq_false_iff_ne.mpr h1
    simp [List.filter_cons, hb, ih h2]

theorem mem_dictKeys_dictSet {α : Type} (d : List (String × α)) (k x : String) (v : α)
    (h : x ∈ dictKeys (dictSet d k v)) :
    x = k ∨ x ∈ dictKeys d := by
  induction d with
  | nil =>
    rw [dictSet, dictKeys_cons] at h
    rcases List.mem_cons.mp h with h | h
    · exact Or.inl h
    · simp [dictKeys] at h
  | cons e rest ih =>
    obtain ⟨k₁, v₁⟩ := e
    rw [dictSet] at h
    cases hb : k₁ == k with
    | true =>
      rw [hb, if_pos rfl, dictKeys_cons] at h
      rcases List.mem_cons.mp h with h | h
      · exact Or.inl h
      · exact Or.inr (by rw [dictKeys_cons]; exact List.mem_cons_of_mem _ h)
    | false =>
      rw [hb] at h
      simp only [Bool.false_eq_true, if_false] at h
      rw [dictKeys_cons] at h
      rcases List.mem_cons.mp h with h | h
      · exact Or.inr (by rw [dictKeys_cons, h]; exact List.mem_cons_self _ _)
      · rcases ih h with h' | h'
        · exact Or.inl h'
        · exact Or.inr (by rw [dictKeys_cons]; exact List.mem_cons_of_mem _ h')

theorem nodup_dictKeys_dictSet {α : Type} (d : List (String × α)) (k : String) (v : α)
    (h : (dictKeys d).Nodup) :
    (dictKeys (dictSet d k v)).Nodup := by
  induction d with
  | nil =>
    rw [dictSet, dictKeys_cons]
    simp [dictKeys]
  | cons e rest ih =>
    obtain ⟨k₁, v₁⟩ := e
    rw [dictKeys_cons, List.nodup_cons] at h
    cases hb : k₁ == k with
    | true =>
      have hk : k₁ = k := by simpa using hb
      rw [dictSet, hb, if_pos rfl, dictKeys_cons, List.nodup_cons]
      exact ⟨hk ▸ h.1, h.2⟩
    | false =>
      have hk : k₁ ≠ k := by simpa using hb
      rw [dictSet, hb]
      simp only [Bool.false_eq_true, if_false]
      rw [dictKeys_cons, List.nodup_cons]
      refine ⟨fun hx => ?_, ih h.2⟩
      rcases mem_dictKeys_dictSet rest k k₁ v hx with h' | h'
      · exact hk h'
      · exact h.1 h'

theorem dictFilter_dictSet_of_nodup {α : Type} (d : List (String × α)) (k : String) (v : α)
    (h : (dictKeys d).Nodup) :
    (dictSet d k v).filter (fun e => e.1 == k) = [(k, v)] := by
  induction d with
  | nil => simp [dictSet, List.filter_cons]
  | cons e rest ih =>
    obtain ⟨k₁, v₁⟩ := e
    rw [dictKeys_cons, List.nodup_cons] at h
    cases hb : k₁ == k with
    | true =>
      have hk : k₁ = k := by simpa using hb
      subst hk
      have hp : (((k₁ : String), v).1 == k₁) = true := by simp
      rw [dictSet, hb, if_pos rfl, List.filter_cons, hp, if_pos rfl,
        dictFilter_eq_nil_of_not_mem rest k₁ h.1]
    | false =>
      rw [dictSet, hb]
      simp only [Bool.false_eq_true, if_false]
      simp [List.filter_cons, hb]
      exact ih h.2

/-! ### The matcher refines the specification on ordinary queries -/

theorem classifyChar_ordinary (c : Char) (h : isSpecialChar c = false) :
    classifyChar c = .atom (.lit c) := by
  rw [isSpecialChar] at h
  simp only [Bool.or_eq_false_iff] at h
  obtain ⟨⟨⟨⟨h1, h2⟩, h3⟩, h4⟩, h5⟩ := h
  rw [classifyChar, h1, h2, h3, h4, h5]
  rfl

theorem compileChars_ordinary (cs : List Char)
    (h : cs.all (fun c => !(isSpecialChar c)) = true) :
    compileChars cs = .ok (cs.map ReAtom.lit) := by
  induction cs with
  | nil => rfl
  | cons c rest ih =>
    rw [List.all_cons, Bool.and_eq_true] at h
    have h1 : isSpecialChar c = false := by
      cases hsc : isSpecialChar c
      · rfl
      · rw [hsc] at h; simp at h
    rw [List.map, compileChars, classifyChar_ordinary c h1, ih h.2]

theorem newlineFree_forall (s : String) (h : newlineFree s = true) :
    ∀ d ∈ s.data, d ≠ '\n' := by
  intro d hd
  have hx := (List.all_eq_true.mp h) d hd
  simpa using hx

theorem fillerFind_lit (c : Char) (l : List Char) (h : ∀ d ∈ l, d ≠ '\n') :
    fillerFind (ReAtom.lit c) l = specFillerFind c l := by
  induction l with
  | nil => rfl
  | cons d rest ih =>
    rw [fillerFind, specFillerFind]
    simp only [atomMatches]
    by_cases hm : charIEq c d = true
    · rw [if_pos hm, if_pos hm]
    · rw [if_neg hm, if_neg hm]
      have hd : (d == '\n') = false :=
        beq_eq_false_iff_ne.mpr (h d (List.mem_cons_self d rest))
      rw [hd]
      simp only [Bool.false_eq_true, if_false]
      rw [ih (fun x hx => h x (List.mem_cons_of_mem d hx))]

theorem matchRest_map_lit (q : List Char) : ∀ l : List Char, (∀ d ∈ l, d ≠ '\n') →
    matchRest (q.map ReAtom.lit) l = specMatchRest q l := by
  induction q with
  | nil => intro l _; rfl
  | cons c cs ih =>
    intro l hl
    rw [List.map, matchRest, specMatchRest, fillerFind_lit c l hl]
    have hih : ∀ j : Nat,
        matchRest (cs.map ReAtom.lit) (l.drop (j + 1))
          = specMatchRest cs (l.drop (j + 1)) :=
      fun j => ih (l.drop (j + 1)) (fun x hx => hl x (List.drop_subset (j + 1) l hx))
    simp only [hih]

theorem searchAux_map_lit (c : Char) (cs : List Char) : ∀ (l : List Char) (p : Nat),
    (∀ d ∈ l, d ≠ '\n') →
    searchAux (ReAtom.lit c) (cs.map ReAtom.lit) l p = specSearchAux c cs l p := by
  intro l
  induction l with
  | nil => intro p _; rfl
  | cons d rest ih =>
    intro p hl
    have hrest : ∀ x ∈ rest, x ≠ '\n' := fun x hx => hl x (List.mem_cons_of_mem d hx)
    rw [searchAux, specSearchAux]
    simp only [atomMatches]
    rw [matchRest_map_lit cs rest hrest]
    by_cases hcd : charIEq c d = true
    · rw [if_pos hcd, if_pos hcd]
      cases specMatchRest cs rest with
      | none => exact ih (p + 1) hrest
      | some m => rfl
    · rw [if_neg hcd, if_neg hcd]
      exact ih (p + 1) hrest

theorem reSearch_map_lit (q s : List Char) (hs : ∀ d ∈ s, d ≠ '\n') :
    reSearch (q.map ReAtom.lit) s = specSearch q s := by
  cases q with
  | nil => rfl
  | cons c cs =>
    rw [List.map, reSearch, specSearch]
    exact searchAux_map_lit c cs s 0 hs

theorem collectMatches_map_lit {T : Type} (q : List Char) (key : T → String) :
    ∀ (items : List T) (idx : Nat),
    (∀ it ∈ items, newlineFree (key it) = true) →
    collectMatches (q.map ReAtom.lit) key items idx = specCollect q key items idx := by
  intro items
  induction items with
  | nil => intro idx _; rfl
  | cons it rest ih =>
    intro idx hk
    rw [collectMatches, specCollect,
      reSearch_map_lit q (key it).data
        (newlineFree_forall (key it) (hk it (List.mem_cons_self it rest)))]
    have ihr := ih (idx + 1) (fun x hx => hk x (List.mem_cons_of_mem it hx))
    cases specSearch q (key it).data with
    | none => exact ihr
    | some r => rw [ihr]

/-- Claim C1 (amended to the modelled fragment: queries of ordinary ASCII
characters over candidates with ASCII, newline-free keys): on that domain
the matcher of the source equals the matcher described by the
specification — case-insensitive lazy subsequence search of the query's
characters over each candidate's key, candidates without a match
discarded, the result minimising `(matched-span length, start offset,
original index)` lexicographically, `none` when no candidate matches —
and in particular it returns `none` on the empty candidate sequence.  The
ASCII bounds delimit where `charIEq` models `re.IGNORECASE`; the
newline-free bound is where the spec's arbitrary filler coincides with
the program's non-`DOTALL` filler. -/
theorem fuzzymatch_refines_spec {T : Type} (name : String) (items : List T)
    (key : T → String) (h : allOrdinary name = true)
    (ha : asciiOnly name = true)
    (hk : ∀ it ∈ items, asciiOnly (key it) = true ∧ newlineFree (key it) = true) :
    _fuzzymatch name items key = .returns (fuzzymatchSpec name items key)
    ∧ _fuzzymatch name ([] : List T) key = .returns none := by
  have hc : compileChars name.data = .ok (name.data.map ReAtom.lit) :=
    compileChars_ordinary name.data h
  constructor
  · rw [_fuzzymatch, hc]
    show FuzzyRun.returns (fuzzymatchCore (name.data.map ReAtom.lit) items key)
      = FuzzyRun.returns (fuzzymatchSpec name items key)
    rw [fuzzymatchCore, fuzzymatchSpec,
      collectMatches_map_lit name.data key items 0 (fun it hit => (hk it hit).2)]
  · rw [_fuzzymatch, hc]
    show FuzzyRun.returns (fuzzymatchCore (name.data.map ReAtom.lit) [] key)
      = FuzzyRun.returns none
    rfl

/-- Witness for `fuzzymatch_refines_spec`: a concrete ordinary ASCII query
over concrete ASCII newline-free candidates, where both sides return the
candidate with the shortest, earliest match. -/
theorem fuzzymatch_refines_spec_witness :
    allOrdinary "kit" = true
    ∧ _fuzzymatch "kit" ["Kitchen Light", "Kit", "desk"] (fun s => s)
        = .returns (fuzzymatchSpec "kit" ["Kitchen Light", "Kit", "desk"] (fun s => s))
    ∧ fuzzymatchSpec "kit" ["Kitchen Light", "Kit", "desk"] (fun s => s)
        = some "Kitchen Light" :=
  ⟨by decide,
   (fuzzymatch_refines_spec "kit" ["Kitchen Light", "Kit", "desk"] (fun s => s)
     (by decide) (by decide) (by decide)).1,
   by decide⟩

/-- Counterexample to claim C1 as stated: for the query `"."` the source
does not search the keys for the query's characters — the unescaped dot
matches any character, so the candidate `"x"`, whose key contains no `.`
at all, is returned instead of no candidate matching. -/
theorem fuzzymatch_dot_counterexample :
    _fuzzymatch "." ["x"] (fun s => s) = .returns (some "x")
    ∧ fuzzymatchSpec "." ["x"] (fun s => s) = none := by
  constructor
  · rfl
  · rfl

/-- Claim C2 (amended to queries of ordinary characters): on such queries
the matcher is total — it neither raises nor leaves the modelled regex
fragment, and returns an optional candidate. -/
theorem fuzzymatch_total_ordinary {T : Type} (name : String) (items : List T)
    (key : T → String) (h : allOrdinary name = true) :
    ∃ r : Option T, _fuzzymatch name items key = .returns r := by
  rw [_fuzzymatch, compileChars_ordinary name.data h]
  exact ⟨fuzzymatchCore (name.data.map ReAtom.lit) items key, rfl⟩

/-- Witness for `fuzzymatch_total_ordinary` at a concrete query and
candidate list. -/
theorem fuzzymatch_total_ordinary_witness :
    allOrdinary "abc" = true
    ∧ ∃ r : Option String, _fuzzymatch "abc" ["zzabcz"] (fun s => s) = .returns r :=
  ⟨by decide, fuzzymatch_total_ordinary "abc" ["zzabcz"] (fun s => s) (by decide)⟩

/-- Counterexample to claim C2 as stated: the query `"*"` contains a regex
metacharacter, the generated pattern `"*"` makes `re.compile` raise
`re.error` ("nothing to repeat"), so the matcher raises instead of
returning a candidate or none. -/
theorem fuzzymatch_star_raises :
    _fuzzymatch "*" ["light"] (fun s => s) = FuzzyRun.raises := rfl

/-! ### Dispatch pipeline claims -/

/-- Claim C4: dispatching an intent type with no registered handler raises
`UnknownIntent` directly — not wrapped — and no handler runs, so no
service call is issued. -/
theorem unknown_intent_direct (opp : Opp) (platform intent_type : String)
    (slots : Option Slots) (text_input : Option String) (context : Option Context)
    (h : dictGet opp.intents intent_type = none) :
    async_handle opp platform intent_type slots text_input context
      = some (.error (.unknownIntent ("Unknown intent " ++ intent_type)), []) := by
  rw [async_handle, h]

/-- Witness for `unknown_intent_direct`: the empty registry. -/
theorem unknown_intent_direct_witness :
    dictGet (Opp.mk [] []).intents "OppTurnOn" = none
    ∧ async_handle ⟨[], []⟩ "test" "OppTurnOn" none none none
        = some (.error (.unknownIntent "Unknown intent OppTurnOn"), []) :=
  ⟨rfl, unknown_intent_direct ⟨[], []⟩ "test" "OppTurnOn" none none none rfl⟩

/-- Claim C5: dispatching a `ServiceIntentHandler` — whose declared slot
schema requires the `name` key — with slots lacking that key fails with
`InvalidSlotInfo` carrying the underlying validation error as its cause,
and no service call is issued. -/
theorem missing_slot_invalid_slot_info (t dom srv sp : String) (states : List State)
    (platform : String) (slots : Slots) (ti : Option String) (ctx : Option Context)
    (h : dictGet slots "name" = none) :
    async_handle ⟨[(t, (ServiceIntentHandler.mk t dom srv sp).toHandler)], states⟩
        platform t (some slots) ti ctx
      = some (.error (.invalidSlotInfo ("Received invalid slot info for " ++ t)
          (.volInvalid "required key not provided @ data[name]")), []) := by
  simp [async_handle, dictGet, ServiceIntentHandler.toHandler, serviceHandlerRun,
    async_validate_slots_service, h]

/-- Witness for `missing_slot_invalid_slot_info`: empty slots. -/
theorem missing_slot_invalid_slot_info_witness :
    dictGet ([] : Slots) "name" = none
    ∧ async_handle
        ⟨[("turn_on_test",
            (ServiceIntentHandler.mk "turn_on_test" "light" "turn_on"
              "Turned on \x7b\x7d").toHandler)], []⟩
        "test" "turn_on_test" (some []) none none
      = some (.error (.invalidSlotInfo "Received invalid slot info for turn_on_test"
          (.volInvalid "required key not provided @ data[name]")), []) :=
  ⟨rfl,
   missing_slot_invalid_slot_info "turn_on_test" "light" "turn_on" "Turned on \x7b\x7d"
     [] "test" [] none none rfl⟩

/-- Claim C6: a `ServiceIntentHandler` dispatched with a string name slot
that fuzzy-matches no entity state fails with `IntentHandleError`
propagated verbatim, and no service call is issued.  The ASCII hypotheses
delimit the fragment on which the embedded matcher is faithful to
`re.IGNORECASE`, so that the no-match hypothesis speaks for the
program. -/
theorem no_match_intent_handle_error (t dom srv sp : String) (states : List State)
    (platform name : String) (ti : Option String) (ctx : Option Context)
    (han : asciiOnly name = true)
    (has : states.all (fun s => asciiOnly s.name) = true)
    (h : _fuzzymatch name states (fun s => s.name) = .returns none) :
    async_handle ⟨[(t, (ServiceIntentHandler.mk t dom srv sp).toHandler)], states⟩
        platform t (some [("name", .dict [("value", .str name)])]) ti ctx
      = some (.error (.intentHandleError ("Unable to find an entity called " ++ name)),
          []) := by
  simp [async_handle, dictGet, ServiceIntentHandler.toHandler, serviceHandlerRun,
    async_validate_slots_service, cvString, dictSet, async_match_state, h]

/-- Witness for `no_match_intent_handle_error`: a name matching nothing in
a one-entity store. -/
theorem no_match_intent_handle_error_witness :
    _fuzzymatch "xyz" [State.mk "light.kitchen" "Kitchen Light"] (fun s => s.name)
        = .returns none
    ∧ async_handle
        ⟨[("turn_on_test",
            (ServiceIntentHandler.mk "turn_on_test" "light" "turn_on"
              "Turned on \x7b\x7d").toHandler)],
          [State.mk "light.kitchen" "Kitchen Light"]⟩
        "test" "turn_on_test" (some [("name", .dict [("value", .str "xyz")])]) none none
      = some (.error (.intentHandleError "Unable to find an entity called xyz"), []) :=
  ⟨by decide,
   no_match_intent_handle_error "turn_on_test" "light" "turn_on" "Turned on \x7b\x7d"
     [State.mk "light.kitchen" "Kitchen Light"] "test" "xyz" none none (by decide)
     (by decide) (by decide)⟩

/-- Claim C3 (amended to the modelled fragment: ASCII name and display
names, and a speech template whose formatting with one argument succeeds,
i.e. at most one positional placeholder and no other brace construct): a
`ServiceIntentHandler(intent_type, domain, service, speech)` dispatched
with a valid string name slot whose fuzzy match over the current entity
states (keyed by display name) yields a state calls the service exactly
once with `(domain, service, {entity_id: matched id})` and the intent's
context, and answers with plain speech equal to the template formatted
with the matched entity's display name. -/
theorem service_intent_success (t dom srv sp : String) (states : List State)
    (platform name : String) (ti : Option String) (ctx : Option Context) (st : State)
    (fsp : String)
    (han : asciiOnly name = true)
    (has : states.all (fun s => asciiOnly s.name) = true)
    (h : _fuzzymatch name states (fun s => s.name) = .returns (some st))
    (hfm : pyFormat sp st.name = .formatted fsp) :
    async_handle ⟨[(t, (ServiceIntentHandler.mk t dom srv sp).toHandler)], states⟩
        platform t (some [("name", .dict [("value", .str name)])]) ti ctx
      = some (.ok
          { intent := some ⟨platform, t, [("name", .dict [("value", .str name)])], ti,
              ctx.getD freshContext⟩
            speech := [("plain", ⟨fsp, none⟩)]
            card := [] },
          [⟨dom, srv, st.entity_id, ctx.getD freshContext⟩]) := by
  simp [async_handle, dictGet, ServiceIntentHandler.toHandler, serviceHandlerRun,
    async_validate_slots_service, cvString, dictSet, async_match_state, h, hfm,
    async_set_speech]

/-- Witness for `service_intent_success`: the Kitchen Light scenario of
the specification — `light.turn_on` is called with `light.kitchen` and the
plain speech is "Turned on Kitchen Light". -/
theorem service_intent_success_witness :
    _fuzzymatch "Kitchen Light" [State.mk "light.kitchen" "Kitchen Light"]
        (fun s => s.name) = .returns (some (State.mk "light.kitchen" "Kitchen Light"))
    ∧ async_handle
        ⟨[("turn_on_test",
            (ServiceIntentHandler.mk "turn_on_test" "light" "turn_on"
              "Turned on \x7b\x7d").toHandler)],
          [State.mk "light.kitchen" "Kitchen Light"]⟩
        "test" "turn_on_test"
        (some [("name", .dict [("value", .str "Kitchen Light")])]) none none
      = some (.ok
          { intent := some ⟨"test", "turn_on_test",
              [("name", .dict [("value", .str "Kitchen Light")])], none, freshContext⟩
            speech := [("plain", ⟨"Turned on Kitchen Light", none⟩)]
            card := [] },
          [⟨"light", "turn_on", "light.kitchen", freshContext⟩]) :=
  ⟨by decide,
   service_intent_success "turn_on_test" "light" "turn_on" "Turned on \x7b\x7d"
     [State.mk "light.kitchen" "Kitchen Light"] "test" "Kitchen Light" none none
     (State.mk "light.kitchen" "Kitchen Light") "Turned on Kitchen Light"
     (by decide) (by decide) (by decide) (by decide)⟩

/-- Counterexample to claim C3 as stated: for the speech template
`"x \x7b\x7d y \x7b\x7d"`, which contains two positional placeholders for
the single formatting argument, `str.format` raises `IndexError` after the
service call has been issued, so the dispatch surfaces
`IntentUnexpectedError` instead of returning the response with formatted
plain speech that the claim asserts for every speech template. -/
theorem service_intent_format_counterexample :
    async_handle
      ⟨[("turn_on_test",
          (ServiceIntentHandler.mk "turn_on_test" "light" "turn_on"
            "x \x7b\x7d y \x7b\x7d").toHandler)],
        [State.mk "light.kitchen" "Kitchen Light"]⟩
      "test" "turn_on_test"
      (some [("name", .dict [("value", .str "Kitchen Light")])]) none none
    = some (.error (.intentUnexpectedError "Error handling turn_on_test"
        (.otherExc "IndexError")),
        [⟨"light", "turn_on", "light.kitchen", freshContext⟩]) := rfl

/-- Claim C7 (amended): an exception raised inside a handler that is
neither in the intent error taxonomy nor a `voluptuous.Invalid` surfaces
as `IntentUnexpectedError` with the original exception as its cause (a
`voluptuous.Invalid` instead surfaces as `InvalidSlotInfo`). -/
theorem nontaxonomy_wrapped_unexpected (opp : Opp) (platform t : String)
    (h : IntentHandler) (slots : Option Slots) (ti : Option String)
    (ctx : Option Context) (e : PyExc) (calls : List ServiceCall)
    (hl : dictGet opp.intents t = some h)
    (hr : h.run opp.states ⟨platform, t, slots.getD [], ti, ctx.getD freshContext⟩
        = some (.error e, calls))
    (hne : isIntentError e = false) (hnv : isVolInvalid e = false) :
    async_handle opp platform t slots ti ctx
      = some (.error (.intentUnexpectedError ("Error handling " ++ t) e), calls) := by
  rw [async_handle, hl]
  simp only [hr]
  cases e <;> simp_all [isIntentError, isVolInvalid]

/-- A handler whose body raises a `NotImplementedError`, as the abstract
base `IntentHandler.async_handle` does; used as the concrete instance for
the unexpected-error wrapping. -/
def rawBaseHandler : IntentHandler :=
  { intent_type := some "raw", platforms := some [], run := baseHandlerRun }

/-- Witness for `nontaxonomy_wrapped_unexpected`: dispatching the abstract
base handler wraps its `NotImplementedError` as `IntentUnexpectedError`
with the original as cause. -/
theorem nontaxonomy_wrapped_unexpected_witness :
    dictGet (Opp.mk [("raw", rawBaseHandler)] []).intents "raw" = some rawBaseHandler
    ∧ async_handle ⟨[("raw", rawBaseHandler)], []⟩ "test" "raw" none none none
        = some (.error (.intentUnexpectedError "Error handling raw"
            .notImplementedError), []) :=
  ⟨rfl,
   nontaxonomy_wrapped_unexpected ⟨[("raw", rawBaseHandler)], []⟩ "test" "raw"
     rawBaseHandler none none none .notImplementedError [] rfl rfl rfl rfl⟩

/-- Counterexample to claim C7 as stated: a `voluptuous.Invalid` raised
inside a handler — here the slot validation of a `ServiceIntentHandler`
given empty slots — is not in the intent error taxonomy, yet the pipeline
surfaces it as `InvalidSlotInfo`, not as `IntentUnexpectedError`. -/
theorem vol_invalid_not_wrapped_unexpected :
    isIntentError (PyExc.volInvalid "required key not provided @ data[name]") = false
    ∧ async_handle
        ⟨[("turn_on_test",
            (ServiceIntentHandler.mk "turn_on_test" "light" "turn_on"
              "Turned on \x7b\x7d").toHandler)], []⟩
        "test" "turn_on_test" (some []) none none
      = some (.error (.invalidSlotInfo "Received invalid slot info for turn_on_test"
          (.volInvalid "required key not provided @ data[name]")), []) :=
  ⟨rfl, rfl⟩

/-- Claim C10: dispatch never consults the platform allow-list — the
result of `async_handle` is unchanged under any replacement of the
handler's `platforms`, the handler registered for the intent type runs for
every platform string, and under the base class default `platforms = []`
the unused `async_can_handle` returns false for every intent. -/
theorem dispatch_ignores_platforms (h : IntentHandler)
    (ps₁ ps₂ : Option (List String)) (states : List State) (platform t : String)
    (slots : Option Slots) (ti : Option String) (ctx : Option Context) (i : Intent)
    (resp : IntentResponse) (calls : List ServiceCall)
    (hr : h.run states ⟨platform, t, slots.getD [], ti, ctx.getD freshContext⟩
        = some (.ok resp, calls)) :
    (async_handle ⟨[(t, { h with platforms := ps₁ })], states⟩ platform t slots ti ctx
      = async_handle ⟨[(t, { h with platforms := ps₂ })], states⟩ platform t slots ti ctx)
    ∧ async_can_handle { h with platforms := some [] } i = false
    ∧ async_handle ⟨[(t, h)], states⟩ platform t slots ti ctx = some (.ok resp, calls) := by
  refine ⟨?_, rfl, ?_⟩
  · simp [async_handle, dictGet]
  · simp [async_handle, dictGet, hr]

/-- Witness for `dispatch_ignores_platforms`: a handler answering with an
empty response is dispatched from platform "other", which is outside its
empty allow-list. -/
def constHandler : IntentHandler :=
  { intent_type := some "const"
    platforms := some []
    run := fun _ _ => some (.ok ⟨none, [], []⟩, []) }

/-- Witness applying `dispatch_ignores_platforms` to `constHandler` at
platform "other". -/
theorem dispatch_ignores_platforms_witness :
    (async_handle ⟨[("const", { constHandler with platforms := some [] })], []⟩
        "other" "const" none none none
      = async_handle ⟨[("const", { constHandler with platforms := none })], []⟩
        "other" "const" none none none)
    ∧ async_can_handle { constHandler with platforms := some [] }
        ⟨"other", "const", [], none, freshContext⟩ = false
    ∧ async_handle ⟨[("const", constHandler)], []⟩ "other" "const" none none none
        = some (.ok ⟨none, [], []⟩, []) :=
  dispatch_ignores_platforms constHandler (some []) none [] "other" "const" none none
    none ⟨"other", "const", [], none, freshContext⟩ ⟨none, [], []⟩ [] rfl

/-- Claim C9: `async_set_speech` overwrites the entry of its speech type:
after setting "a" and then "b" for the same type on a response whose
speech keys are (as Python dicts guarantee) duplicate free, the mapping
holds exactly one entry for that type, containing "b", and `as_dict`
exposes exactly that entry in its speech component. -/
theorem set_speech_overwrites (r : IntentResponse) (t a b : String)
    (x y : Option Prim) (h : (dictKeys r.speech).Nodup) :
    dictGet (async_set_speech (async_set_speech r a t x) b t y).speech t = some ⟨b, y⟩
    ∧ (as_dict (async_set_speech (async_set_speech r a t x) b t y)).1.filter
        (fun e => e.1 == t) = [(t, ⟨b, y⟩)] := by
  constructor
  · simp [async_set_speech, dictGet_dictSet_self]
  · have h₁ : (dictKeys (dictSet r.speech t ⟨a, x⟩)).Nodup :=
      nodup_dictKeys_dictSet r.speech t ⟨a, x⟩ h
    simp only [async_set_speech, as_dict]
    exact dictFilter_dictSet_of_nodup _ t ⟨b, y⟩ h₁

/-- Witness for `set_speech_overwrites`: a fresh response with the default
"plain" type. -/
theorem set_speech_overwrites_witness :
    dictGet (async_set_speech (async_set_speech ⟨none, [], []⟩ "a" "plain" none)
        "b" "plain" none).speech "plain" = some ⟨"b", none⟩
    ∧ (as_dict (async_set_speech (async_set_speech ⟨none, [], []⟩ "a" "plain" none)
        "b" "plain" none)).1.filter (fun e => e.1 == "plain")
      = [("plain", ⟨"b", none⟩)] :=
  set_speech_overwrites ⟨none, [], []⟩ "plain" "a" "b" none none (by decide)

/-- Claim C8: after every sequence of registrations of handlers with a set
intent type, registration never fails, the registry keys stay duplicate
free, and lookup of a type returns the most recently registered handler of
that type (falling back to the pre-existing entry); moreover registering a
second handler of the same type succeeds with only the overwrite warning,
lookup then returns the second handler, and dispatch behaves exactly as if
the second handler were the only registered one. -/
theorem register_last_wins :
    (∀ (reg : List (String × IntentHandler)) (hs : List IntentHandler) (t : String),
      (∀ h ∈ hs, (h.intent_type).isSome) →
      ∃ reg₁, register_all reg hs = .ok reg₁
        ∧ dictGet reg₁ t
            = ((hs.reverse.find? (fun h => h.intent_type == some t)).or (dictGet reg t))
        ∧ ((dictKeys reg).Nodup → (dictKeys reg₁).Nodup))
    ∧ (∀ (reg : List (String × IntentHandler)) (h₁ h₂ : IntentHandler) (t : String)
        (states : List State) (platform : String) (slots : Option Slots)
        (ti : Option String) (ctx : Option Context),
      h₁.intent_type = some t → h₂.intent_type = some t →
      ∃ reg₁, async_register reg h₁ = .ok (reg₁, (dictGet reg t).isSome)
        ∧ async_register reg₁ h₂ = .ok (dictSet reg₁ t h₂, true)
        ∧ dictGet (dictSet reg₁ t h₂) t = some h₂
        ∧ async_handle ⟨dictSet reg₁ t h₂, states⟩ platform t slots ti ctx
            = async_handle ⟨[(t, h₂)], states⟩ platform t slots ti ctx) := by
  constructor
  · intro reg hs
    induction hs generalizing reg with
    | nil =>
      intro t _
      exact ⟨reg, rfl, by simp [dictGet], fun hn => hn⟩
    | cons h hs ih =>
      intro t hyp
      obtain ⟨t', ht'⟩ := Option.isSome_iff_exists.mp (hyp h (List.mem_cons_self h hs))
      have hra : register_all reg (h :: hs) = register_all (dictSet reg t' h) hs := by
        rw [register_all, async_register, ht']
      obtain ⟨reg₁, hok, hget, hnd⟩ :=
        ih (dictSet reg t' h) t (fun g hg => hyp g (List.mem_cons_of_mem h hg))
      refine ⟨reg₁, hra ▸ hok, ?_, fun hn => hnd (nodup_dictKeys_dictSet reg t' h hn)⟩
      rw [hget, dictGet_dictSet, List.reverse_cons, List.find?_append,
        List.find?_singleton, ht']
      show (hs.reverse.find? (fun g => g.intent_type == some t)).or
          (if (t' == t) = true then some h else dictGet reg t)
        = ((hs.reverse.find? (fun g => g.intent_type == some t)).or
            (if (t' == t) = true then some h else none)).or (dictGet reg t)
      cases hf : hs.reverse.find? (fun g => g.intent_type == some t) with
      | some g => rfl
      | none =>
        cases hb : t' == t with
        | true => rfl
        | false => rfl
  · intro reg h₁ h₂ t states platform slots ti ctx ht1 ht2
    refine ⟨dictSet reg t h₁, ?_, ?_, dictGet_dictSet_self _ _ _, ?_⟩
    · rw [async_register, ht1]
    · simp [async_register, ht2, dictGet_dictSet_self]
    · simp [async_handle, dictGet, dictGet_dictSet_self]

/-- First handler registered under the duplicated type "dup". -/
def dupA : IntentHandler :=
  { intent_type := some "dup", platforms := some [], run := baseHandlerRun }

/-- Second handler registered under the duplicated type "dup". -/
def dupB : IntentHandler :=
  { intent_type := some "dup", platforms := some []
    run := fun _ _ => some (.ok ⟨none, [], []⟩, []) }

/-- Witness for `register_last_wins`, applying both parts to the two
handlers `dupA` and `dupB` sharing the intent type "dup" over the empty
initial registry. -/
theorem register_last_wins_witness :
    (∃ reg₁, register_all [] [dupA, dupB] = .ok reg₁
      ∧ dictGet reg₁ "dup"
          = ((([dupA, dupB].reverse).find? (fun h => h.intent_type == some "dup")).or
              (dictGet ([] : List (String × IntentHandler)) "dup"))
      ∧ ((dictKeys ([] : List (String × IntentHandler))).Nodup →
          (dictKeys reg₁).Nodup))
    ∧ (∃ reg₁, async_register [] dupA
          = .ok (reg₁, (dictGet ([] : List (String × IntentHandler)) "dup").isSome)
        ∧ async_register reg₁ dupB = .ok (dictSet reg₁ "dup" dupB, true)
        ∧ dictGet (dictSet reg₁ "dup" dupB) "dup" = some dupB
        ∧ async_handle ⟨dictSet reg₁ "dup" dupB, []⟩ "test" "dup" none none none
            = async_handle ⟨[("dup", dupB)], []⟩ "test" "dup" none none none) :=
  ⟨register_last_wins.1 [] [dupA, dupB] "dup"
    (by
      intro h hm
      rcases List.mem_cons.mp hm with rfl | hm
      · rfl
      · rcases List.mem_cons.mp hm with rfl | hm
        · rfl
        · cases hm),
   register_last_wins.2 [] dupA dupB "dup" [] "test" none none none rfl rfl⟩

end OPP
